import Mathlib

/-!
# Technology radar builder (`src/util/factory.js`)

A shallow embedding of the build pipeline of `factory.js`: `plotRadar`,
`createRadar`, the `createBlips` callback and `plotErrorMessage`.

JavaScript effects (DOM updates, constructor calls, the call of the rendering
collaborator) are recorded in an event log, so that "what happened before the
exception" is observable.  Plain objects used as dictionaries (`ringMap`,
`quadrants`) are embedded as association lists of their own properties together
with the properties every plain object inherits from `Object.prototype`.  The
lodash function `_.capitalize` is a parameter of the build, so every statement about
quadrant names holds for the Unicode case mapping of JavaScript as for any other.
-/

set_option autoImplicit false

namespace Factory

/-! ## Data model -/

/-- A sanitized row, the value `InputSanitizer.sanitize` returns: six string fields. -/
structure SanitizedBlip where
  name : String
  ring : String
  quadrant : String
  isNew : String
  topic : String
  description : String
deriving DecidableEq, Repr

/-- Modelled from the spec: the `Ring` model (`src/models/ring.js`, whose source is
not available) is a name and an order index, fixed at construction. -/
structure Ring where
  name : String
  order : Nat
deriving DecidableEq, Repr

/-- The value of a property read `o[k]` on a plain object used as a dictionary:
an own property, a member inherited from `Object.prototype`, or `undefined`. -/
inductive JsRef (α : Type) where
  | own (v : α)
  | inherited (key : String)
  | undefined
deriving DecidableEq, Repr

/-- Modelled from the spec: the `Blip` model (`src/models/blip.js`, whose source is
not available) keeps its constructor arguments: name, ring reference, the `isNew`
boolean, topic and description.  The ring argument is whatever `ringMap[blip.ring]`
evaluated to. -/
structure Blip where
  name : String
  ring : JsRef Ring
  isNew : Bool
  topic : String
  description : String
deriving DecidableEq, Repr

/-- Modelled from the spec: the `Quadrant` model (`src/models/quadrant.js`, whose source
is not available) is a display name and an append-only ordered sequence of blips. -/
structure Quadrant where
  name : String
  blips : List Blip
deriving DecidableEq, Repr

/-- Modelled from the spec: `Quadrant.add` appends one blip at the end of the sequence. -/
def Quadrant.add (q : Quadrant) (b : Blip) : Quadrant :=
  { q with blips := q.blips ++ [b] }

/-- Modelled from the spec: the `Radar` model (`src/models/radar.js`, whose source is
not available) is the aggregate of the quadrants handed to `addQuadrant`, in the
order they were added; the spec states that no cap on their number is enforced. -/
structure Radar where
  quadrants : List Quadrant
deriving DecidableEq, Repr

/-- Modelled from the spec: `Radar.addQuadrant` adds one quadrant to the aggregate. -/
def Radar.addQuadrant (r : Radar) (q : Quadrant) : Radar :=
  { quadrants := r.quadrants ++ [q] }

/-- The exceptions `plotErrorMessage` distinguishes with `instanceof`:
`MalformedDataError`, `SheetNotFoundError`, and anything else (a `TypeError`
for instance), of which only a description is kept. -/
inductive Exception where
  | malformedData (message : String)
  | sheetNotFound (message : String)
  | other (description : String)
deriving DecidableEq, Repr

/-- Modelled from the spec: the constant `ExceptionMessages.TOO_MANY_RINGS`
(`src/util/exceptionMessages.js`, whose source is not available); only its identity
matters here. -/
def TOO_MANY_RINGS : String := "too many rings"

/-- Observable steps of a build, in the order they happen. -/
inductive Event where
  | setTitle (title : String)
  | removeLoading
  | newRing (ring : Ring)
  | newQuadrant (name : String)
  | newBlip (blip : Blip)
  | newRadar
  | addQuadrant (quadrant : Quadrant)
  | graphingRadar (size : Int) (radar : Radar)
  | consoleError (exception : Exception)
  | errorHtml (message : String)
deriving DecidableEq, Repr

/-- A run of JavaScript code: the events that happened, then either the value
produced or the exception thrown. -/
structure Run (α : Type) where
  log : List Event
  res : Except Exception α

/-! ## JavaScript helpers -/

/-- Property names every plain object inherits from `Object.prototype`. -/
def objectPrototypeKeys : List String :=
  ["constructor", "__defineGetter__", "__defineSetter__", "hasOwnProperty",
   "__lookupGetter__", "__lookupSetter__", "isPrototypeOf", "propertyIsEnumerable",
   "toString", "valueOf", "__proto__", "toLocaleString"]

/-- Own properties of a plain object `{}`, in insertion order. -/
abbrev JsObject (α : Type) := List (String × α)

/-- Own-property lookup. -/
def JsObject.find {α : Type} : JsObject α → String → Option α
  | [], _ => none
  | (k, v) :: rest, key => if k = key then some v else JsObject.find rest key

/-- The read `o[key]`: the own property if there is one, else the inherited member of
`Object.prototype` of that name if there is one, else `undefined`. -/
def JsObject.get {α : Type} (o : JsObject α) (key : String) : JsRef α :=
  match o.find key with
  | some v => .own v
  | none => if key ∈ objectPrototypeKeys then .inherited key else .undefined

/-- The write `o[key] = v`: replaces the value of an existing own property in place,
otherwise adds the property after the existing ones. -/
def JsObject.set {α : Type} : JsObject α → String → α → JsObject α
  | [], key, v => [(key, v)]
  | (k, w) :: rest, key, v =>
    if k = key then (k, v) :: rest else (k, w) :: JsObject.set rest key v

/-- ASCII digits only, no sign. -/
def digitsValue (cs : List Char) : Nat :=
  cs.foldl (fun n c => 10 * n + (c.toNat - 48)) 0

/-- Whether a property name is an array index (a canonical decimal numeral below
`2^32 - 1`): such keys are enumerated first, in ascending numeric order. -/
def isArrayIndex (key : String) : Bool :=
  match key.data with
  | [] => false
  | c :: cs =>
    (c :: cs).all Char.isDigit && (c != '0' || cs.isEmpty) &&
      decide (digitsValue (c :: cs) < 4294967295)

/-- Numeric value of an array-index key. -/
def indexValue (key : String) : Nat := digitsValue key.data

/-- Enumeration order of the own properties of a plain object (what `_.each` over an
object visits): array-index keys in ascending numeric order, then the other
keys in insertion order. -/
def JsObject.ownEntries {α : Type} (o : JsObject α) : List (String × α) :=
  (o.filter (fun e => isArrayIndex e.1)).insertionSort
      (fun a b => indexValue a.1 ≤ indexValue b.1)
    ++ o.filter (fun e => !isArrayIndex e.1)

/-- The method `String.prototype.toLowerCase` on ASCII letters; other characters are kept.
No character outside ASCII lower-cases to one of the letters of "true", so the
comparison with 'true' is not affected. -/
def toLowerCase (s : String) : String := ⟨s.data.map Char.toLower⟩

/-- What the lodash function `_.capitalize` returns on a string of ASCII characters: the
first character in upper case, the rest in lower case.  On other strings lodash
follows the Unicode case mapping of JavaScript, which is not described here: the
build takes `_.capitalize` as a parameter, and this function stands in for it only
where the build is evaluated on ASCII quadrant names. -/
def capitalizeAscii (s : String) : String :=
  match (toLowerCase s).data with
  | [] => ""
  | c :: cs => ⟨c.toUpper :: cs⟩

/-- The lodash function `_.uniqBy(array, iteratee)`: keeps an element when the value computed for it was not
seen before; `seen` is the list of computed values kept so far. -/
def uniqByAux {α β : Type} [DecidableEq β] (f : α → β) : List α → List β → List α
  | [], _ => []
  | x :: xs, seen =>
    if f x ∈ seen then uniqByAux f xs seen
    else x :: uniqByAux f xs (seen ++ [f x])

/-- The lodash function `_.uniqBy(array, iteratee)`. -/
def uniqBy {α β : Type} [DecidableEq β] (f : α → β) (xs : List α) : List α :=
  uniqByAux f xs []

/-! ## The build: `plotRadar` and the same steps of `createRadar` -/

/-- The constant `maxRings` of the source. -/
def maxRings : Nat := 4

/-- The loop `_.each(rings, function (ringName, i) {...})`: throws at index `maxRings`, otherwise
constructs `Ring(ringName, i)` and stores it in `ringMap`. -/
def ringsEach : List String → Nat → JsObject Ring → Run (JsObject Ring)
  | [], _, ringMap => ⟨[], .ok ringMap⟩
  | ringName :: rest, i, ringMap =>
    if i = maxRings then
      ⟨[], .error (.malformedData TOO_MANY_RINGS)⟩
    else
      let ring : Ring := ⟨ringName, i⟩
      let out := ringsEach rest (i + 1) (ringMap.set ringName ring)
      ⟨Event.newRing ring :: out.log, out.res⟩

/-- The expression `new Blip(blip.name, ringMap[blip.ring], blip.isNew.toLowerCase() === 'true',
blip.topic, blip.description)`. -/
def newBlip (ringMap : JsObject Ring) (blip : SanitizedBlip) : Blip :=
  { name := blip.name
    ring := ringMap.get blip.ring
    isNew := decide (toLowerCase blip.isNew = "true")
    topic := blip.topic
    description := blip.description }

/-- The exception raised by calling `.add` on a value that is not a `Quadrant`. -/
def notAFunction (key : String) : Exception :=
  .other ("TypeError: quadrants[" ++ key ++ "].add is not a function")

/-- The loop `_.each(blips, function (blip) {...})`: creates the quadrant when
`quadrants[blip.quadrant]` is falsy, then calls `.add(new Blip(...))` on
`quadrants[blip.quadrant]`.  The argument is evaluated before the call is attempted,
so a blip is constructed even when the call then fails.  The parameter `capitalize`
is the lodash function `_.capitalize`, a library function whose case mapping is the
Unicode one of JavaScript; the build is described for every such function. -/
def quadrantsEach (capitalize : String → String) (ringMap : JsObject Ring) :
    List SanitizedBlip → JsObject Quadrant → Run (JsObject Quadrant)
  | [], quadrants => ⟨[], .ok quadrants⟩
  | blip :: rest, quadrants =>
    let created : List Event × JsObject Quadrant :=
      match quadrants.get blip.quadrant with
      | .undefined =>
        ([Event.newQuadrant (capitalize blip.quadrant)],
          quadrants.set blip.quadrant ⟨capitalize blip.quadrant, []⟩)
      | _ => ([], quadrants)
    let b := newBlip ringMap blip
    match created.2.get blip.quadrant with
    | .own q =>
      let out := quadrantsEach capitalize ringMap rest (created.2.set blip.quadrant (q.add b))
      ⟨created.1 ++ Event.newBlip b :: out.log, out.res⟩
    | _ => ⟨created.1 ++ [Event.newBlip b], .error (notAFunction blip.quadrant)⟩

/-- The loop `_.each(quadrants, function (quadrant) { radar.addQuadrant(quadrant) })`. -/
def addQuadrants (quadrants : JsObject Quadrant) (radar : Radar) : Radar :=
  (quadrants.ownEntries.map Prod.snd).foldl Radar.addQuadrant radar

/-- The expression `(window.innerHeight - 133) < 620 ? 620 : window.innerHeight - 133`. -/
def radarSize (innerHeight : Int) : Int :=
  if innerHeight - 133 < 620 then 620 else innerHeight - 133

/-- The ring names `_.map(_.uniqBy(blips, 'ring'), 'ring')`. -/
def ringNames (blips : List SanitizedBlip) : List String :=
  (uniqBy (fun b => b.ring) blips).map (fun b => b.ring)

/-- The first phase: `rings`, `ringMap` and the ring loop. -/
def buildRings (blips : List SanitizedBlip) : Run (JsObject Ring) :=
  ringsEach (ringNames blips) 0 []

/-- The steps shared by `plotRadar` (lines 76-104) and `createRadar` (lines 35-67):
remove the loading state, build the rings, the quadrants and the radar, and hand the
radar to the rendering collaborator.  The value is the radar handed over.  The
call `new GraphingRadar(size, radar).init().plot()` is recorded as one event: the
rendering collaborator is outside the pipeline described here. -/
def buildSteps (capitalize : String → String) (innerHeight : Int) (blips : List SanitizedBlip) : Run Radar :=
  let rings := buildRings blips
  match rings.res with
  | .error e => ⟨Event.removeLoading :: rings.log, .error e⟩
  | .ok ringMap =>
    let quads := quadrantsEach capitalize ringMap blips []
    match quads.res with
    | .error e => ⟨Event.removeLoading :: rings.log ++ quads.log, .error e⟩
    | .ok quadrants =>
      let radar := addQuadrants quadrants ⟨[]⟩
      let adds := (quadrants.ownEntries.map Prod.snd).map Event.addQuadrant
      ⟨Event.removeLoading :: rings.log ++ quads.log ++ Event.newRadar :: adds
          ++ [Event.graphingRadar (radarSize innerHeight) radar],
        .ok radar⟩

/-- The function `plotRadar(title, blips)`. -/
def plotRadar (capitalize : String → String) (innerHeight : Int) (title : String)
    (blips : List SanitizedBlip) : Run Radar :=
  let out := buildSteps capitalize innerHeight blips
  ⟨Event.setTitle title :: out.log, out.res⟩

/-! ## The error surface: `plotErrorMessage` -/

/-- The generic preface, the initial value of `message`. -/
def preface : String :=
  "Oops! It seems like there are some problems with loading your data. "

/-- The help link appended after the line break. -/
def helpLink : String :=
  "Please check <a href=\"https://www.thoughtworks.com/radar/how-to-byor\">FAQs</a> for possible solutions."

/-- The string handed to `.html(message)` by `plotErrorMessage(exception)`. -/
def errorMessage (exception : Exception) : String :=
  let message :=
    match exception with
    | .malformedData m => preface ++ m
    | .sheetNotFound m => m
    | .other _ => preface
  message ++ "<br/>" ++ helpLink

/-- The function `plotErrorMessage(exception)`: removes the loading state, logs an unrecognized
exception to the console, and shows the message. -/
def plotErrorMessage (exception : Exception) : List Event :=
  let logged :=
    match exception with
    | .other _ => [Event.consoleError exception]
    | _ => []
  Event.removeLoading :: logged ++ [Event.errorHtml (errorMessage exception)]

/-! ## Input tables: validation, sanitizing, `createRadar` and `createBlips` -/

/-- A raw row: column name and cell value pairs. -/
abbrev RawRow := List (String × String)

/-- An input table: the column names and the rows. -/
structure Table where
  columns : List String
  rows : List RawRow

/-- The class `ContentValidator` as `createRadar` and `createBlips` use it: it is constructed
from the column names alone and its two checks take no argument, so each check is a
function of the column names that returns or throws. -/
structure ContentValidator where
  verifyContent : List String → Except Exception Unit
  verifyHeaders : List String → Except Exception Unit

/-- Whitespace removed by trimming. -/
def isSpace (c : Char) : Bool := c = ' ' || c = '\t' || c = '\n' || c = '\r'

/-- Removal of leading and trailing whitespace. -/
def trim (s : String) : String :=
  ⟨((s.data.dropWhile isSpace).reverse.dropWhile isSpace).reverse⟩

/-- The cell of a row under a column name, the empty string when the row has none. -/
def field (row : RawRow) (column : String) : String :=
  match JsObject.find row column with
  | some v => v
  | none => ""

/-- Modelled from the spec: `InputSanitizer.sanitize` (`src/util/inputSanitizer.js`, whose
source is not available) trims every field and defaults a missing field to the empty string. -/
def sanitize (row : RawRow) : SanitizedBlip :=
  { name := trim (field row "name")
    ring := trim (field row "ring")
    quadrant := trim (field row "quadrant")
    isNew := trim (field row "isNew")
    topic := trim (field row "topic")
    description := trim (field row "description") }

/-- The function `createRadar(data)`: validation of `data.columns`, sanitizing of the rows, the build
steps, and the `catch` that hands any exception to `plotErrorMessage`.  The
function returns nothing; its value here is what it did. -/
def createRadar (capitalize : String → String) (validator : ContentValidator)
    (innerHeight : Int) (data : Table) :
    List Event :=
  match validator.verifyContent data.columns with
  | .error e => plotErrorMessage e
  | .ok _ =>
    match validator.verifyHeaders data.columns with
    | .error e => plotErrorMessage e
    | .ok _ =>
      let out := buildSteps capitalize innerHeight (data.rows.map sanitize)
      match out.res with
      | .error e => out.log ++ plotErrorMessage e
      | .ok _ => out.log

/-- The callback `createBlips(__, tabletop)` of `GoogleSheet.build`, for the selected sheet `sheet`
of a spreadsheet named `googleSheetName`. -/
def createBlips (capitalize : String → String) (validator : ContentValidator)
    (innerHeight : Int)
    (googleSheetName : String) (sheet : Table) : List Event :=
  match validator.verifyContent sheet.columns with
  | .error e => plotErrorMessage e
  | .ok _ =>
    match validator.verifyHeaders sheet.columns with
    | .error e => plotErrorMessage e
    | .ok _ =>
      let out := plotRadar capitalize innerHeight googleSheetName (sheet.rows.map sanitize)
      match out.res with
      | .error e => out.log ++ plotErrorMessage e
      | .ok _ => out.log

/-- Whether the rendering collaborator was invoked. -/
def rendered (log : List Event) : Bool :=
  log.any (fun e => match e with
    | .graphingRadar _ _ => true
    | _ => false)

/-- Whether an error message was shown. -/
def errorShown (log : List Event) : Bool :=
  log.any (fun e => match e with
    | .errorHtml _ => true
    | _ => false)

/-! ## Closed forms of the phases -/

/-- The rings the loop constructs for a list of names, counting from `i`. -/
def ringsFrom : List String → Nat → List Ring
  | [], _ => []
  | n :: ns, i => ⟨n, i⟩ :: ringsFrom ns (i + 1)

/-- The ring map a successful ring phase ends with. -/
def ringMapOf (blips : List SanitizedBlip) : JsObject Ring :=
  (ringsFrom (ringNames blips) 0).map (fun r => (r.name, r))

/-- The quadrant a build ends with under a lookup key: the capitalized key as display
name, and the blips of the rows with that key, in row order. -/
def quadrantOf (capitalize : String → String) (rm : JsObject Ring)
    (blips : List SanitizedBlip) (key : String) : Quadrant :=
  ⟨capitalize key, (blips.filter (fun b => b.quadrant = key)).map (newBlip rm)⟩

/-- The lookup keys of the quadrants, in creation order. -/
def quadrantKeys (blips : List SanitizedBlip) : List String :=
  (uniqBy (fun b => b.quadrant) blips).map (fun b => b.quadrant)

/-- The `quadrants` object a successful quadrant phase ends with. -/
def quadrantsOf (capitalize : String → String) (rm : JsObject Ring)
    (blips : List SanitizedBlip) : JsObject Quadrant :=
  (quadrantKeys blips).map (fun k => (k, quadrantOf capitalize rm blips k))

/-- The radar a successful build hands to the rendering collaborator. -/
def radarOf (capitalize : String → String) (blips : List SanitizedBlip) : Radar :=
  ⟨(JsObject.ownEntries (quadrantsOf capitalize (ringMapOf blips) blips)).map Prod.snd⟩

/-! ## Example inputs -/

/-- Five rows with five different ring names. -/
def fiveRings : List SanitizedBlip :=
  [⟨"Go", "Adopt", "Languages", "true", "", ""⟩,
   ⟨"Rust", "Trial", "Languages", "true", "", ""⟩,
   ⟨"Zig", "Assess", "Languages", "false", "", ""⟩,
   ⟨"COBOL", "Hold", "Languages", "false", "", ""⟩,
   ⟨"Perl", "Retire", "Languages", "false", "", ""⟩]

/-- Rows whose rings are first seen in the order Adopt, Trial, Assess. -/
def threeRings : List SanitizedBlip :=
  [⟨"Go", "Adopt", "Languages", "true", "", ""⟩,
   ⟨"Rust", "Trial", "Languages", "true", "", ""⟩,
   ⟨"Kafka", "Trial", "Platforms", "false", "", ""⟩,
   ⟨"Zig", "Assess", "Languages", "false", "", ""⟩,
   ⟨"Linux", "Adopt", "Platforms", "false", "", ""⟩]

/-- The end-to-end example of the spec: Go and COBOL, both in Languages. -/
def goCobol : List SanitizedBlip :=
  [⟨"Go", "Adopt", "Languages", "true", "", ""⟩,
   ⟨"COBOL", "Hold", "Languages", "false", "", ""⟩]

/-- Two rows whose quadrant fields differ only in case. -/
def mixedCase : List SanitizedBlip :=
  [⟨"Go", "Adopt", "languages", "true", "", ""⟩,
   ⟨"COBOL", "Hold", "Languages", "false", "", ""⟩]

/-- Three rows in two quadrants, written in lower case. -/
def twoQuadrants : List SanitizedBlip :=
  [⟨"Go", "Adopt", "languages", "true", "", ""⟩,
   ⟨"Linux", "Adopt", "platforms", "false", "", ""⟩,
   ⟨"COBOL", "Hold", "languages", "false", "", ""⟩]

/-- One well-formed row whose quadrant field is "constructor". -/
def constructorRow : List SanitizedBlip :=
  [⟨"Go", "Adopt", "constructor", "true", "", ""⟩]

/-- A table with one row and every required field filled. -/
def filledTable : Table :=
  { columns := ["name", "ring", "quadrant", "isNew", "description"]
    rows := [[("name", "Go"), ("ring", "Adopt"), ("quadrant", "Languages"),
              ("isNew", "true"), ("description", "")]] }

/-- The same table with the ring field of its row left empty. -/
def emptyRingTable : Table :=
  { columns := ["name", "ring", "quadrant", "isNew", "description"]
    rows := [[("name", "Go"), ("ring", ""), ("quadrant", "Languages"),
              ("isNew", "true"), ("description", "")]] }

/-- A validator that accepts every list of column names. -/
def acceptAll : ContentValidator :=
  { verifyContent := fun _ => .ok ()
    verifyHeaders := fun _ => .ok () }

/-- A validator whose header check rejects every list of column names. -/
def rejectAll : ContentValidator :=
  { verifyContent := fun _ => .ok ()
    verifyHeaders := fun _ => .error (.malformedData "Document is missing one or more required headers.") }

/-! ## Lemmas on `_.uniqBy` -/

section Uniq
variable {α β : Type} [DecidableEq β]

theorem uniqByAux_cons_of_mem (f : α → β) (x : α) (xs : List α) (seen : List β)
    (h : f x ∈ seen) : uniqByAux f (x :: xs) seen = uniqByAux f xs seen := by
  simp [uniqByAux, h]

theorem uniqByAux_cons_of_not_mem (f : α → β) (x : α) (xs : List α) (seen : List β)
    (h : f x ∉ seen) :
    uniqByAux f (x :: xs) seen = x :: uniqByAux f xs (seen ++ [f x]) := by
  simp [uniqByAux, h]

theorem mem_map_uniqByAux (f : α → β) (xs : List α) (seen : List β) (y : β) :
    y ∈ (uniqByAux f xs seen).map f ↔ y ∈ xs.map f ∧ y ∉ seen := by
  induction xs generalizing seen with
  | nil => simp [uniqByAux]
  | cons x xs ih =>
    by_cases hx : f x ∈ seen
    · rw [uniqByAux_cons_of_mem f x xs seen hx, ih]
      constructor
      · rintro ⟨h1, h2⟩
        exact ⟨by simp only [List.map_cons, List.mem_cons]; exact Or.inr h1, h2⟩
      · rintro ⟨h1, h2⟩
        simp only [List.map_cons, List.mem_cons] at h1
        rcases h1 with h1 | h1
        · exact absurd (h1 ▸ hx) h2
        · exact ⟨h1, h2⟩
    · rw [uniqByAux_cons_of_not_mem f x xs seen hx]
      simp only [List.map_cons, List.mem_cons, ih, List.mem_append, List.mem_singleton]
      constructor
      · rintro (h | ⟨h1, h2⟩)
        · exact ⟨Or.inl h, h ▸ hx⟩
        · exact ⟨Or.inr h1, fun h => h2 (Or.inl h)⟩
      · rintro ⟨h1 | h1, h2⟩
        · exact Or.inl h1
        · by_cases hy : y = f x
          · exact Or.inl hy
          · refine Or.inr ⟨h1, fun h => ?_⟩
            rcases h with h | h | h
            · exact h2 h
            · exact hy h
            · cases h

theorem nodup_map_uniqByAux (f : α → β) (xs : List α) (seen : List β) :
    ((uniqByAux f xs seen).map f).Nodup := by
  induction xs generalizing seen with
  | nil => simp [uniqByAux]
  | cons x xs ih =>
    by_cases hx : f x ∈ seen
    · rw [uniqByAux_cons_of_mem f x xs seen hx]; exact ih seen
    · rw [uniqByAux_cons_of_not_mem f x xs seen hx, List.map_cons, List.nodup_cons]
      refine ⟨?_, ih _⟩
      rw [mem_map_uniqByAux]
      simp

theorem uniqByAux_append (f : α → β) (xs ys : List α) (seen : List β) :
    uniqByAux f (xs ++ ys) seen
      = uniqByAux f xs seen ++ uniqByAux f ys (seen ++ (uniqByAux f xs seen).map f) := by
  induction xs generalizing seen with
  | nil => simp [uniqByAux]
  | cons x xs ih =>
    simp only [List.cons_append]
    by_cases hx : f x ∈ seen
    · rw [uniqByAux_cons_of_mem f x _ seen hx, uniqByAux_cons_of_mem f x _ seen hx]
      exact ih seen
    · rw [uniqByAux_cons_of_not_mem f x _ seen hx, uniqByAux_cons_of_not_mem f x _ seen hx,
        ih, List.cons_append, List.map_cons]
      simp

theorem length_uniqBy (f : α → β) (xs : List α) :
    (uniqBy f xs).length = (xs.map f).toFinset.card := by
  have h1 : ((uniqBy f xs).map f).Nodup := nodup_map_uniqByAux f xs []
  have h2 : ((uniqBy f xs).map f).toFinset = (xs.map f).toFinset := by
    ext y
    simp only [List.mem_toFinset]
    unfold uniqBy
    rw [mem_map_uniqByAux]
    simp
  rw [← h2, List.toFinset_card_of_nodup h1, List.length_map]

end Uniq

/-! ## Lemmas on plain objects -/

section Obj
variable {α : Type}

theorem JsObject.find_nil (key : String) : JsObject.find ([] : JsObject α) key = none := rfl

theorem JsObject.find_cons (k : String) (v : α) (o : JsObject α) (key : String) :
    JsObject.find ((k, v) :: o) key = if k = key then some v else JsObject.find o key := rfl

theorem JsObject.find_eq_none_iff (o : JsObject α) (key : String) :
    JsObject.find o key = none ↔ key ∉ o.map Prod.fst := by
  induction o with
  | nil => simp [JsObject.find_nil]
  | cons e o ih =>
    obtain ⟨k, v⟩ := e
    rw [JsObject.find_cons]
    by_cases h : k = key
    · simp [h]
    · rw [if_neg h, ih]
      simp [Ne.symm h]

theorem JsObject.find_append (o o2 : JsObject α) (key : String) :
    JsObject.find (o ++ o2) key
      = match JsObject.find o key with
        | some v => some v
        | none => JsObject.find o2 key := by
  induction o with
  | nil => simp [JsObject.find_nil]
  | cons e o ih =>
    obtain ⟨k, v⟩ := e
    rw [List.cons_append, JsObject.find_cons, JsObject.find_cons]
    by_cases h : k = key
    · simp [h]
    · rw [if_neg h, if_neg h, ih]

theorem JsObject.find_set (o : JsObject α) (k : String) (v : α) (key : String) :
    JsObject.find (JsObject.set o k v) key
      = if k = key then some v else JsObject.find o key := by
  induction o with
  | nil => simp [JsObject.set, JsObject.find_cons, JsObject.find_nil]
  | cons e o ih =>
    obtain ⟨k2, w⟩ := e
    simp only [JsObject.set]
    by_cases h : k2 = k
    · subst h
      rw [if_pos rfl, JsObject.find_cons, JsObject.find_cons]
      by_cases h2 : k2 = key
      · simp [h2]
      · simp [h2]
    · rw [if_neg h, JsObject.find_cons, JsObject.find_cons, ih]
      by_cases h2 : k2 = key
      · subst h2
        simp [Ne.symm h]
      · simp [h2]

theorem JsObject.keys_set (o : JsObject α) (k : String) (v : α) :
    (JsObject.set o k v).map Prod.fst
      = if k ∈ o.map Prod.fst then o.map Prod.fst else o.map Prod.fst ++ [k] := by
  induction o with
  | nil => simp [JsObject.set]
  | cons e o ih =>
    obtain ⟨k2, w⟩ := e
    simp only [JsObject.set]
    by_cases h : k2 = k
    · subst h
      simp
    · rw [if_neg h, List.map_cons, ih]
      by_cases h2 : k ∈ o.map Prod.fst
      · have : k ∈ List.map Prod.fst ((k2, w) :: o) := by
          rw [List.map_cons]; exact List.mem_cons_of_mem _ h2
        rw [if_pos h2, if_pos this, List.map_cons]
      · have : k ∉ List.map Prod.fst ((k2, w) :: o) := by
          rw [List.map_cons, List.mem_cons]
          rintro (h3 | h3)
          · exact h h3.symm
          · exact h2 h3
        rw [if_neg h2, if_neg this, List.map_cons, List.cons_append]

theorem JsObject.set_of_not_mem (o : JsObject α) (k : String) (v : α)
    (h : k ∉ o.map Prod.fst) : JsObject.set o k v = o ++ [(k, v)] := by
  induction o with
  | nil => rfl
  | cons e o ih =>
    obtain ⟨k2, w⟩ := e
    simp only [List.map_cons, List.mem_cons, not_or] at h
    simp only [JsObject.set]
    rw [if_neg (Ne.symm h.1), ih h.2, List.cons_append]

/-- An object is determined by its key order and the value found under each key. -/
theorem JsObject.eq_of_keys_find (o : JsObject α) (ks : List String) (g : String → α)
    (hk : o.map Prod.fst = ks) (hn : ks.Nodup)
    (hf : ∀ k ∈ ks, JsObject.find o k = some (g k)) :
    o = ks.map (fun k => (k, g k)) := by
  induction o generalizing ks with
  | nil => subst hk; rfl
  | cons e o ih =>
    obtain ⟨k, v⟩ := e
    subst hk
    rw [List.map_cons, List.nodup_cons] at hn
    have h0 := hf k (by simp)
    rw [JsObject.find_cons, if_pos rfl] at h0
    have hv : v = g k := Option.some.inj h0
    have hrest : o = (o.map Prod.fst).map (fun k => (k, g k)) := by
      apply ih _ rfl hn.2
      intro k2 hk2
      have := hf k2 (by rw [List.map_cons]; exact List.mem_cons_of_mem _ hk2)
      rw [JsObject.find_cons] at this
      have hne : k ≠ k2 := fun h => hn.1 (h ▸ hk2)
      rwa [if_neg hne] at this
    rw [List.map_cons, List.map_cons, ← hrest, hv]

theorem JsObject.get_of_find_some (o : JsObject α) (key : String) (v : α)
    (h : JsObject.find o key = some v) : JsObject.get o key = .own v := by
  simp [JsObject.get, h]

end Obj

/-! ## The ring phase -/

theorem ringsFrom_append (xs ys : List String) (i : Nat) :
    ringsFrom (xs ++ ys) i = ringsFrom xs i ++ ringsFrom ys (i + xs.length) := by
  induction xs generalizing i with
  | nil => simp [ringsFrom]
  | cons x xs ih =>
    have h : i + 1 + xs.length = i + (xs.length + 1) := by omega
    rw [List.cons_append, ringsFrom, ringsFrom, ih, List.length_cons, h, List.cons_append]

theorem map_name_ringsFrom (xs : List String) (i : Nat) :
    (ringsFrom xs i).map (fun r => r.name) = xs := by
  induction xs generalizing i with
  | nil => rfl
  | cons x xs ih => simp [ringsFrom, ih]

theorem map_order_ringsFrom (xs : List String) (i : Nat) :
    (ringsFrom xs i).map (fun r => r.order) = List.range' i xs.length := by
  induction xs generalizing i with
  | nil => rfl
  | cons x xs ih => simp [ringsFrom, ih, List.range']

theorem ringsEach_log (names : List String) (i : Nat) (m : JsObject Ring)
    (hi : i ≤ maxRings) :
    (ringsEach names i m).log
      = (ringsFrom (names.take (maxRings - i)) i).map Event.newRing := by
  induction names generalizing i m with
  | nil => simp [ringsEach, ringsFrom]
  | cons n ns ih =>
    unfold ringsEach
    by_cases h : i = maxRings
    · subst h
      simp [ringsFrom]
    · rw [if_neg h]
      have h1 : i + 1 ≤ maxRings := by omega
      have h2 : maxRings - i = (maxRings - (i + 1)) + 1 := by omega
      simp only []
      rw [ih (i + 1) _ h1, h2, List.take_succ_cons]
      simp [ringsFrom]

theorem ringsEach_error (names : List String) (i : Nat) (m : JsObject Ring)
    (hi : i ≤ maxRings) (hlen : maxRings < i + names.length) :
    (ringsEach names i m).res = .error (.malformedData TOO_MANY_RINGS) := by
  induction names generalizing i m with
  | nil => simp at hlen; omega
  | cons n ns ih =>
    unfold ringsEach
    by_cases h : i = maxRings
    · rw [if_pos h]
    · rw [if_neg h]
      simp only []
      apply ih
      · omega
      · simp only [List.length_cons] at hlen; omega

theorem ringsEach_ok (names : List String) (i : Nat) (m : JsObject Ring)
    (hn : names.Nodup) (hd : ∀ n ∈ names, n ∉ m.map Prod.fst)
    (hlen : i + names.length ≤ maxRings) :
    (ringsEach names i m).res
      = .ok (m ++ (ringsFrom names i).map (fun r => (r.name, r))) := by
  induction names generalizing i m with
  | nil => simp [ringsEach, ringsFrom]
  | cons n ns ih =>
    unfold ringsEach
    simp only [List.length_cons] at hlen
    have h : i ≠ maxRings := by omega
    rw [if_neg h]
    simp only []
    rw [List.nodup_cons] at hn
    have hnm : n ∉ m.map Prod.fst := hd n (by simp)
    rw [JsObject.set_of_not_mem m n _ hnm, ih (i + 1) _ hn.2 _ (by omega)]
    · simp [ringsFrom]
    · intro k hk
      rw [List.map_append, List.mem_append]
      rintro (h1 | h1)
      · exact hd k (List.mem_cons_of_mem _ hk) h1
      · simp only [List.map_cons, List.map_nil, List.mem_singleton] at h1
        exact hn.1 (h1 ▸ hk)

theorem nodup_ringNames (blips : List SanitizedBlip) : (ringNames blips).Nodup :=
  nodup_map_uniqByAux _ blips []

theorem mem_ringNames (blips : List SanitizedBlip) (r : String) :
    r ∈ ringNames blips ↔ r ∈ blips.map (fun b => b.ring) := by
  unfold ringNames uniqBy
  rw [mem_map_uniqByAux]
  simp

theorem length_ringNames (blips : List SanitizedBlip) :
    (ringNames blips).length = (blips.map (fun b => b.ring)).toFinset.card := by
  unfold ringNames
  rw [List.length_map, length_uniqBy]

theorem buildRings_ok (blips : List SanitizedBlip)
    (h : (blips.map (fun b => b.ring)).toFinset.card ≤ maxRings) :
    (buildRings blips).res = .ok (ringMapOf blips) := by
  unfold buildRings
  rw [ringsEach_ok _ _ _ (nodup_ringNames blips) (by simp)
    (by rw [length_ringNames]; omega)]
  simp [ringMapOf]

theorem buildRings_error (blips : List SanitizedBlip)
    (h : maxRings < (blips.map (fun b => b.ring)).toFinset.card) :
    (buildRings blips).res = .error (.malformedData TOO_MANY_RINGS) := by
  unfold buildRings
  exact ringsEach_error _ _ _ (Nat.zero_le _) (by rw [length_ringNames]; omega)

theorem buildRings_log (blips : List SanitizedBlip) :
    (buildRings blips).log
      = (ringsFrom ((ringNames blips).take maxRings) 0).map Event.newRing := by
  unfold buildRings
  rw [ringsEach_log _ _ _ (Nat.zero_le _)]
  simp

theorem find_ringMapOf_first (pre post : List SanitizedBlip) (b : SanitizedBlip)
    (hfirst : b.ring ∉ pre.map (fun x => x.ring)) :
    JsObject.find (ringMapOf (pre ++ b :: post)) b.ring
      = some ⟨b.ring, (pre.map (fun x => x.ring)).toFinset.card⟩ := by
  have hsplit : ringNames (pre ++ b :: post)
      = ringNames pre ++ b.ring ::
          (uniqByAux (fun x => x.ring) post
            (ringNames pre ++ [b.ring])).map (fun x => x.ring) := by
    unfold ringNames uniqBy
    rw [uniqByAux_append, List.nil_append]
    have hb : b.ring ∉ (uniqByAux (fun x => x.ring) pre []).map (fun x => x.ring) := by
      rw [mem_map_uniqByAux]
      exact fun h => hfirst h.1
    rw [uniqByAux_cons_of_not_mem _ _ _ _ hb]
    simp
  have hnone : JsObject.find ((ringsFrom (ringNames pre) 0).map (fun r => (r.name, r))) b.ring
      = none := by
    rw [JsObject.find_eq_none_iff, List.map_map]
    have : (Prod.fst ∘ fun (r : Ring) => (r.name, r)) = fun r => r.name := rfl
    rw [this, map_name_ringsFrom, mem_ringNames]
    exact hfirst
  unfold ringMapOf
  rw [hsplit, ringsFrom_append, List.map_append, JsObject.find_append, hnone]
  simp only [ringsFrom, List.map_cons, JsObject.find_cons, if_pos, Nat.zero_add]
  rw [length_ringNames]

/-! ## The quadrant phase -/

section Build
variable {capitalize : String → String}

theorem quadrantsEach_cons_some (rm : JsObject Ring) (blip : SanitizedBlip)
    (rest : List SanitizedBlip) (acc : JsObject Quadrant) (q : Quadrant)
    (h : JsObject.find acc blip.quadrant = some q) :
    quadrantsEach capitalize rm (blip :: rest) acc
      = ⟨Event.newBlip (newBlip rm blip) ::
            (quadrantsEach capitalize rm rest
              (JsObject.set acc blip.quadrant (q.add (newBlip rm blip)))).log,
          (quadrantsEach capitalize rm rest
              (JsObject.set acc blip.quadrant (q.add (newBlip rm blip)))).res⟩ := by
  simp [quadrantsEach, JsObject.get, h]

theorem quadrantsEach_cons_inherited (rm : JsObject Ring) (blip : SanitizedBlip)
    (rest : List SanitizedBlip) (acc : JsObject Quadrant)
    (h : JsObject.find acc blip.quadrant = none)
    (hp : blip.quadrant ∈ objectPrototypeKeys) :
    quadrantsEach capitalize rm (blip :: rest) acc
      = ⟨[Event.newBlip (newBlip rm blip)], .error (notAFunction blip.quadrant)⟩ := by
  simp [quadrantsEach, JsObject.get, h, hp]

theorem JsObject.set_append_singleton {α : Type} (o : JsObject α) (k : String) (v w : α)
    (h : k ∉ o.map Prod.fst) :
    JsObject.set (o ++ [(k, v)]) k w = o ++ [(k, w)] := by
  induction o with
  | nil => simp [JsObject.set]
  | cons e o ih =>
    obtain ⟨k2, u⟩ := e
    simp only [List.map_cons, List.mem_cons, not_or] at h
    rw [List.cons_append, JsObject.set, if_neg (Ne.symm h.1), ih h.2, List.cons_append]

theorem quadrantsEach_cons_new (rm : JsObject Ring) (blip : SanitizedBlip)
    (rest : List SanitizedBlip) (acc : JsObject Quadrant)
    (h : JsObject.find acc blip.quadrant = none)
    (hp : blip.quadrant ∉ objectPrototypeKeys) :
    quadrantsEach capitalize rm (blip :: rest) acc
      = ⟨Event.newQuadrant (capitalize blip.quadrant) :: Event.newBlip (newBlip rm blip) ::
            (quadrantsEach capitalize rm rest
              (acc ++ [(blip.quadrant, ⟨capitalize blip.quadrant, [newBlip rm blip]⟩)])).log,
          (quadrantsEach capitalize rm rest
              (acc ++ [(blip.quadrant, ⟨capitalize blip.quadrant, [newBlip rm blip]⟩)])).res⟩ := by
  have hk : blip.quadrant ∉ acc.map Prod.fst := (JsObject.find_eq_none_iff _ _).1 h
  have hset : JsObject.set (JsObject.set acc blip.quadrant ⟨capitalize blip.quadrant, []⟩)
      blip.quadrant ⟨capitalize blip.quadrant, [newBlip rm blip]⟩
      = acc ++ [(blip.quadrant, ⟨capitalize blip.quadrant, [newBlip rm blip]⟩)] := by
    rw [JsObject.set_of_not_mem acc _ _ hk, JsObject.set_append_singleton _ _ _ _ hk]
  simp [quadrantsEach, JsObject.get, h, hp, JsObject.find_set, Quadrant.add, hset]

theorem quadrantsEach_char (rm : JsObject Ring) (blips : List SanitizedBlip) :
    ∀ (acc qf : JsObject Quadrant), (quadrantsEach capitalize rm blips acc).res = .ok qf →
      qf.map Prod.fst
          = acc.map Prod.fst
            ++ (uniqByAux (fun b => b.quadrant) blips (acc.map Prod.fst)).map
                (fun b => b.quadrant)
      ∧ (∀ key, JsObject.find qf key
          = match JsObject.find acc key with
            | some q =>
              some ⟨q.name,
                q.blips ++ (blips.filter (fun b => b.quadrant = key)).map (newBlip rm)⟩
            | none =>
              if key ∈ blips.map (fun b => b.quadrant) then some (quadrantOf capitalize rm blips key)
              else none)
      ∧ (∀ b ∈ blips, b.quadrant ∈ acc.map Prod.fst ∨ b.quadrant ∉ objectPrototypeKeys) := by
  induction blips with
  | nil =>
    intro acc qf h
    simp only [quadrantsEach] at h
    have hq : acc = qf := Except.ok.inj h
    subst hq
    refine ⟨by simp [uniqByAux], ?_, by simp⟩
    intro key
    cases hf : JsObject.find acc key <;> simp
  | cons blip rest ih =>
    intro acc qf h
    cases hfind : JsObject.find acc blip.quadrant with
    | some q =>
      rw [quadrantsEach_cons_some rm blip rest acc q hfind] at h
      have hmem : blip.quadrant ∈ acc.map Prod.fst := by
        by_contra hc
        rw [(JsObject.find_eq_none_iff _ _).2 hc] at hfind
        cases hfind
      obtain ⟨h1, h2, h3⟩ := ih _ qf h
      rw [JsObject.keys_set, if_pos hmem] at h1 h3
      refine ⟨?_, ?_, ?_⟩
      · rw [h1, uniqByAux_cons_of_mem _ _ _ _ hmem]
      · intro key
        rw [h2 key, JsObject.find_set]
        by_cases hk : blip.quadrant = key
        · subst hk
          simp [hfind, Quadrant.add]
        · rw [if_neg hk]
          cases hf : JsObject.find acc key with
          | some q2 => simp [hk]
          | none => simp [hk, Ne.symm hk, quadrantOf]
      · intro b hb
        rcases List.mem_cons.1 hb with hb | hb
        · exact Or.inl (hb ▸ hmem)
        · exact h3 b hb
    | none =>
      have hmem : blip.quadrant ∉ acc.map Prod.fst := (JsObject.find_eq_none_iff _ _).1 hfind
      by_cases hp : blip.quadrant ∈ objectPrototypeKeys
      · rw [quadrantsEach_cons_inherited rm blip rest acc hfind hp] at h
        cases h
      · rw [quadrantsEach_cons_new rm blip rest acc hfind hp] at h
        obtain ⟨h1, h2, h3⟩ := ih _ qf h
        refine ⟨?_, ?_, ?_⟩
        · rw [h1, uniqByAux_cons_of_not_mem _ _ _ _ hmem]
          simp
        · intro key
          rw [h2 key, JsObject.find_append]
          cases hf : JsObject.find acc key with
          | some q2 =>
            have hk : blip.quadrant ≠ key := by
              intro hk
              rw [hk] at hfind
              rw [hfind] at hf
              cases hf
            simp [hk]
          | none =>
            by_cases hk : blip.quadrant = key
            · subst hk
              simp [JsObject.find_cons, quadrantOf]
            · simp [JsObject.find_cons, JsObject.find_nil, hk, Ne.symm hk, quadrantOf]
        · intro b hb
          rcases List.mem_cons.1 hb with hb | hb
          · exact Or.inr (hb ▸ hp)
          · rcases h3 b hb with h4 | h4
            · rw [List.map_append, List.mem_append] at h4
              rcases h4 with h4 | h4
              · exact Or.inl h4
              · simp only [List.map_cons, List.map_nil, List.mem_singleton] at h4
                exact Or.inr (h4 ▸ hp)
            · exact Or.inr h4

theorem quadrantsEach_ok (rm : JsObject Ring) (blips : List SanitizedBlip) :
    ∀ (acc : JsObject Quadrant), (∀ b ∈ blips, b.quadrant ∉ objectPrototypeKeys) →
      ∃ qf, (quadrantsEach capitalize rm blips acc).res = .ok qf := by
  induction blips with
  | nil => intro acc _; exact ⟨acc, rfl⟩
  | cons blip rest ih =>
    intro acc hp
    have hrest : ∀ b ∈ rest, b.quadrant ∉ objectPrototypeKeys :=
      fun b hb => hp b (List.mem_cons_of_mem _ hb)
    cases hfind : JsObject.find acc blip.quadrant with
    | some q =>
      rw [quadrantsEach_cons_some rm blip rest acc q hfind]
      exact ih _ hrest
    | none =>
      rw [quadrantsEach_cons_new rm blip rest acc hfind (hp blip (by simp))]
      exact ih _ hrest

/-! ## The radar phase and the whole build -/

theorem nodup_quadrantKeys (blips : List SanitizedBlip) : (quadrantKeys blips).Nodup :=
  nodup_map_uniqByAux _ blips []

theorem mem_quadrantKeys (blips : List SanitizedBlip) (k : String) :
    k ∈ quadrantKeys blips ↔ k ∈ blips.map (fun b => b.quadrant) := by
  unfold quadrantKeys uniqBy
  rw [mem_map_uniqByAux]
  simp

theorem quadrantKeys_perm_dedup (blips : List SanitizedBlip) :
    (quadrantKeys blips).Perm (blips.map (fun b => b.quadrant)).dedup := by
  rw [List.perm_ext_iff_of_nodup (nodup_quadrantKeys blips) (List.nodup_dedup _)]
  intro k
  rw [mem_quadrantKeys, List.mem_dedup]

theorem quadrantsEach_nil_char (rm : JsObject Ring) (blips : List SanitizedBlip)
    (qf : JsObject Quadrant) (h : (quadrantsEach capitalize rm blips []).res = .ok qf) :
    qf = quadrantsOf capitalize rm blips ∧ ∀ b ∈ blips, b.quadrant ∉ objectPrototypeKeys := by
  obtain ⟨h1, h2, h3⟩ := quadrantsEach_char rm blips [] qf h
  refine ⟨?_, ?_⟩
  · apply JsObject.eq_of_keys_find qf (quadrantKeys blips) (quadrantOf capitalize rm blips)
    · rw [h1]; rfl
    · exact nodup_quadrantKeys blips
    · intro k hk
      rw [h2 k, JsObject.find_nil]
      simp only []
      rw [if_pos ((mem_quadrantKeys blips k).1 hk)]
  · intro b hb
    rcases h3 b hb with h4 | h4
    · simp at h4
    · exact h4

theorem quadrantsEach_nil_ok (rm : JsObject Ring) (blips : List SanitizedBlip)
    (hp : ∀ b ∈ blips, b.quadrant ∉ objectPrototypeKeys) :
    (quadrantsEach capitalize rm blips []).res = .ok (quadrantsOf capitalize rm blips) := by
  obtain ⟨qf, hq⟩ := quadrantsEach_ok rm blips [] hp
  rw [hq, (quadrantsEach_nil_char rm blips qf hq).1]

theorem foldl_addQuadrant (qs : List Quadrant) (r : Radar) :
    qs.foldl Radar.addQuadrant r = ⟨r.quadrants ++ qs⟩ := by
  induction qs generalizing r with
  | nil => simp
  | cons q qs ih => simp [ih, Radar.addQuadrant]

theorem addQuadrants_eq (o : JsObject Quadrant) :
    addQuadrants o ⟨[]⟩ = ⟨o.ownEntries.map Prod.snd⟩ := by
  unfold addQuadrants
  rw [foldl_addQuadrant]
  simp

theorem ownEntries_perm {α : Type} (o : JsObject α) : (JsObject.ownEntries o).Perm o := by
  unfold JsObject.ownEntries
  refine ((List.perm_insertionSort _ _).append_right _).trans ?_
  have h := List.filter_append_perm (fun e : String × α => isArrayIndex e.1) o
  have h2 : (fun e : String × α => !isArrayIndex e.1)
      = (fun e : String × α => !decide (isArrayIndex e.1 = true)) := by
    funext e; simp
  rw [h2]
  simpa using h

theorem buildSteps_ok (innerHeight : Int) (blips : List SanitizedBlip)
    (hr : (blips.map (fun b => b.ring)).toFinset.card ≤ maxRings)
    (hp : ∀ b ∈ blips, b.quadrant ∉ objectPrototypeKeys) :
    (buildSteps capitalize innerHeight blips).res = .ok (radarOf capitalize blips) := by
  unfold buildSteps
  simp only [buildRings_ok blips hr, quadrantsEach_nil_ok _ blips hp, addQuadrants_eq]
  rfl

theorem buildSteps_char (innerHeight : Int) (blips : List SanitizedBlip) (radar : Radar)
    (h : (buildSteps capitalize innerHeight blips).res = .ok radar) :
    (blips.map (fun b => b.ring)).toFinset.card ≤ maxRings
      ∧ (∀ b ∈ blips, b.quadrant ∉ objectPrototypeKeys)
      ∧ radar = radarOf capitalize blips := by
  by_cases hr : (blips.map (fun b => b.ring)).toFinset.card ≤ maxRings
  · by_cases hp : ∀ b ∈ blips, b.quadrant ∉ objectPrototypeKeys
    · rw [buildSteps_ok innerHeight blips hr hp] at h
      exact ⟨hr, hp, (Except.ok.inj h).symm⟩
    · exfalso
      unfold buildSteps at h
      simp only [buildRings_ok blips hr] at h
      cases hq : (quadrantsEach capitalize (ringMapOf blips) blips []).res with
      | error e => simp [hq] at h
      | ok qf => exact hp (quadrantsEach_nil_char _ blips qf hq).2
  · exfalso
    unfold buildSteps at h
    simp [buildRings_error blips (by omega)] at h

theorem radarOf_perm (blips : List SanitizedBlip) :
    (radarOf capitalize blips).quadrants.Perm
      ((blips.map (fun b => b.quadrant)).dedup.map (quadrantOf capitalize (ringMapOf blips) blips)) := by
  unfold radarOf
  refine ((ownEntries_perm _).map Prod.snd).trans ?_
  unfold quadrantsOf
  rw [List.map_map]
  exact (quadrantKeys_perm_dedup blips).map _

/-! ## Further lemmas on the build -/

theorem plotRadar_res (innerHeight : Int) (title : String) (blips : List SanitizedBlip) :
    (plotRadar capitalize innerHeight title blips).res = (buildSteps capitalize innerHeight blips).res := rfl

theorem buildSteps_log_of_error (innerHeight : Int) (blips : List SanitizedBlip)
    (h : maxRings < (blips.map (fun b => b.ring)).toFinset.card) :
    (buildSteps capitalize innerHeight blips).log
      = Event.removeLoading ::
          (ringsFrom ((ringNames blips).take maxRings) 0).map Event.newRing := by
  unfold buildSteps
  simp only [buildRings_error blips h, buildRings_log]

theorem JsObject.mem_of_find_some {α : Type} (o : JsObject α) (key : String) (v : α)
    (h : JsObject.find o key = some v) : (key, v) ∈ o := by
  induction o with
  | nil => cases h
  | cons e o ih =>
    obtain ⟨k, w⟩ := e
    rw [JsObject.find_cons] at h
    by_cases hk : k = key
    · rw [if_pos hk] at h
      cases h
      rw [hk]
      exact List.mem_cons_self _ _
    · rw [if_neg hk] at h
      exact List.mem_cons_of_mem _ (ih h)

theorem find_map_ringsFrom (names : List String) (j : Nat) (n : String) (h : n ∈ names) :
    ∃ i, JsObject.find ((ringsFrom names j).map (fun r => (r.name, r))) n = some ⟨n, i⟩ := by
  induction names generalizing j with
  | nil => cases h
  | cons x xs ih =>
    simp only [ringsFrom, List.map_cons, JsObject.find_cons]
    by_cases hx : x = n
    · exact ⟨j, by rw [if_pos hx, hx]⟩
    · rw [if_neg hx]
      rcases List.mem_cons.1 h with h1 | h1
      · exact absurd h1.symm hx
      · exact ih (j + 1) h1

theorem find_ringMapOf (blips : List SanitizedBlip) (row : SanitizedBlip) (h : row ∈ blips) :
    ∃ i, JsObject.find (ringMapOf blips) row.ring = some ⟨row.ring, i⟩ :=
  find_map_ringsFrom _ 0 _ ((mem_ringNames blips row.ring).2 (List.mem_map_of_mem _ h))

theorem ringMapOf_name_unique (blips : List SanitizedBlip) (r1 r2 : Ring)
    (h1 : r1 ∈ (ringMapOf blips).map Prod.snd) (h2 : r2 ∈ (ringMapOf blips).map Prod.snd)
    (hn : r1.name = r2.name) : r1 = r2 := by
  have hmap : (ringMapOf blips).map Prod.snd = ringsFrom (ringNames blips) 0 := by
    unfold ringMapOf
    rw [List.map_map]
    exact List.map_id _
  rw [hmap] at h1 h2
  have hnd : ((ringsFrom (ringNames blips) 0).map (fun r => r.name)).Nodup := by
    rw [map_name_ringsFrom]; exact nodup_ringNames blips
  exact List.inj_on_of_nodup_map hnd h1 h2 hn

theorem toLower_eq_t (c : Char) : c.toLower = 't' ↔ c = 't' ∨ c = 'T' := by
  by_cases h : c.toNat ≥ 65 ∧ c.toNat ≤ 90
  · have hl : c.toLower = Char.ofNat (c.toNat + 32) := by
      unfold Char.toLower
      rw [if_pos h]
    rw [hl]
    have hc : c = Char.ofNat c.toNat := (Char.ofNat_toNat c).symm
    obtain ⟨h1, h2⟩ := h
    generalize c.toNat = n at hc h1 h2
    subst hc
    interval_cases n <;> decide
  · have hl : c.toLower = c := by
      unfold Char.toLower
      rw [if_neg h]
    rw [hl]
    constructor
    · exact fun h1 => Or.inl h1
    · rintro (h1 | h1)
      · exact h1
      · subst h1
        exact absurd (by decide) h

theorem toLower_eq_r (c : Char) : c.toLower = 'r' ↔ c = 'r' ∨ c = 'R' := by
  by_cases h : c.toNat ≥ 65 ∧ c.toNat ≤ 90
  · have hl : c.toLower = Char.ofNat (c.toNat + 32) := by
      unfold Char.toLower
      rw [if_pos h]
    rw [hl]
    have hc : c = Char.ofNat c.toNat := (Char.ofNat_toNat c).symm
    obtain ⟨h1, h2⟩ := h
    generalize c.toNat = n at hc h1 h2
    subst hc
    interval_cases n <;> decide
  · have hl : c.toLower = c := by
      unfold Char.toLower
      rw [if_neg h]
    rw [hl]
    constructor
    · exact fun h1 => Or.inl h1
    · rintro (h1 | h1)
      · exact h1
      · subst h1
        exact absurd (by decide) h

theorem toLower_eq_u (c : Char) : c.toLower = 'u' ↔ c = 'u' ∨ c = 'U' := by
  by_cases h : c.toNat ≥ 65 ∧ c.toNat ≤ 90
  · have hl : c.toLower = Char.ofNat (c.toNat + 32) := by
      unfold Char.toLower
      rw [if_pos h]
    rw [hl]
    have hc : c = Char.ofNat c.toNat := (Char.ofNat_toNat c).symm
    obtain ⟨h1, h2⟩ := h
    generalize c.toNat = n at hc h1 h2
    subst hc
    interval_cases n <;> decide
  · have hl : c.toLower = c := by
      unfold Char.toLower
      rw [if_neg h]
    rw [hl]
    constructor
    · exact fun h1 => Or.inl h1
    · rintro (h1 | h1)
      · exact h1
      · subst h1
        exact absurd (by decide) h

theorem toLower_eq_e (c : Char) : c.toLower = 'e' ↔ c = 'e' ∨ c = 'E' := by
  by_cases h : c.toNat ≥ 65 ∧ c.toNat ≤ 90
  · have hl : c.toLower = Char.ofNat (c.toNat + 32) := by
      unfold Char.toLower
      rw [if_pos h]
    rw [hl]
    have hc : c = Char.ofNat c.toNat := (Char.ofNat_toNat c).symm
    obtain ⟨h1, h2⟩ := h
    generalize c.toNat = n at hc h1 h2
    subst hc
    interval_cases n <;> decide
  · have hl : c.toLower = c := by
      unfold Char.toLower
      rw [if_neg h]
    rw [hl]
    constructor
    · exact fun h1 => Or.inl h1
    · rintro (h1 | h1)
      · exact h1
      · subst h1
        exact absurd (by decide) h

theorem map_eq_four {f : Char → Char} {l : List Char} {a b c d : Char}
    (h : l.map f = [a, b, c, d]) :
    ∃ c0 c1 c2 c3, l = [c0, c1, c2, c3] ∧ f c0 = a ∧ f c1 = b ∧ f c2 = c ∧ f c3 = d := by
  have hlen : l.length = 4 := by simpa using congrArg List.length h
  rcases l with _ | ⟨c0, _ | ⟨c1, _ | ⟨c2, _ | ⟨c3, _ | ⟨c4, rest⟩⟩⟩⟩⟩
  · simp at hlen
  · simp at hlen
  · simp at hlen
  · simp at hlen
  · simp only [List.map_cons, List.map_nil, List.cons.injEq, and_true] at h
    exact ⟨c0, c1, c2, c3, rfl, h⟩
  · simp only [List.length_cons] at hlen
    omega

theorem toLowerCase_eq_true_iff (s : String) :
    toLowerCase s = "true" ↔
      ∃ c0 c1 c2 c3, s = String.mk [c0, c1, c2, c3]
        ∧ (c0 = 't' ∨ c0 = 'T') ∧ (c1 = 'r' ∨ c1 = 'R')
        ∧ (c2 = 'u' ∨ c2 = 'U') ∧ (c3 = 'e' ∨ c3 = 'E') := by
  have hlit : ("true" : String) = String.mk ['t', 'r', 'u', 'e'] := rfl
  unfold toLowerCase
  rw [hlit, String.ext_iff]
  show List.map Char.toLower s.data = ['t', 'r', 'u', 'e'] ↔ _
  constructor
  · intro h
    obtain ⟨c0, c1, c2, c3, hs, h0, h1, h2, h3⟩ := map_eq_four h
    exact ⟨c0, c1, c2, c3, String.ext_iff.2 hs, (toLower_eq_t c0).1 h0,
      (toLower_eq_r c1).1 h1, (toLower_eq_u c2).1 h2, (toLower_eq_e c3).1 h3⟩
  · rintro ⟨c0, c1, c2, c3, rfl, h0, h1, h2, h3⟩
    simp only [List.map_cons, List.map_nil, List.cons.injEq, and_true]
    exact ⟨(toLower_eq_t c0).2 h0, (toLower_eq_r c1).2 h1, (toLower_eq_u c2).2 h2,
      (toLower_eq_e c3).2 h3⟩

theorem count_quadrant_eq (blips : List SanitizedBlip) (key : String) :
    (blips.map (fun b => b.quadrant)).count key
      = (blips.filter (fun b => b.quadrant = key)).length := by
  induction blips with
  | nil => rfl
  | cons b bs ih =>
    rw [List.map_cons, List.count_cons, ih, List.filter_cons]
    by_cases h : b.quadrant = key
    · simp [h]
    · simp [h]

theorem radarOf_total (blips : List SanitizedBlip) :
    ((radarOf capitalize blips).quadrants.map (fun q => q.blips.length)).sum = blips.length := by
  rw [((radarOf_perm blips).map (fun q => q.blips.length)).sum_eq, List.map_map]
  have h : ((fun q : Quadrant => q.blips.length) ∘ quadrantOf capitalize (ringMapOf blips) blips)
      = fun key => (blips.map (fun b => b.quadrant)).count key := by
    funext key
    simp [quadrantOf, count_quadrant_eq]
  rw [h, List.sum_map_count_dedup_eq_length, List.length_map]

/-- The build succeeds, with as many blips in the quadrants of the radar as there are rows,
when there are at most 4 distinct ring names and no quadrant field is the name of a
member of `Object.prototype`. -/
theorem plotRadar_total_blips (innerHeight : Int) (title : String)
    (blips : List SanitizedBlip)
    (hr : (blips.map (fun b => b.ring)).toFinset.card ≤ 4)
    (hp : ∀ b ∈ blips, b.quadrant ∉ objectPrototypeKeys) :
    ∃ radar, (plotRadar capitalize innerHeight title blips).res = .ok radar
      ∧ (radar.quadrants.map (fun q => q.blips.length)).sum = blips.length :=
  ⟨radarOf capitalize blips, buildSteps_ok innerHeight blips hr hp, radarOf_total blips⟩

theorem quadrantsEach_log (rm : JsObject Ring) (blips : List SanitizedBlip) :
    ∀ (acc : JsObject Quadrant), ∀ e ∈ (quadrantsEach capitalize rm blips acc).log,
      (∃ n, e = .newQuadrant n) ∨ ∃ b, e = .newBlip b := by
  induction blips with
  | nil => intro acc e he; simp [quadrantsEach] at he
  | cons blip rest ih =>
    intro acc e he
    cases hfind : JsObject.find acc blip.quadrant with
    | some q =>
      rw [quadrantsEach_cons_some rm blip rest acc q hfind] at he
      rcases List.mem_cons.1 he with he | he
      · exact Or.inr ⟨_, he⟩
      · exact ih _ e he
    | none =>
      by_cases hp : blip.quadrant ∈ objectPrototypeKeys
      · rw [quadrantsEach_cons_inherited rm blip rest acc hfind hp] at he
        exact Or.inr ⟨_, List.mem_singleton.1 he⟩
      · rw [quadrantsEach_cons_new rm blip rest acc hfind hp] at he
        rcases List.mem_cons.1 he with he | he
        · exact Or.inl ⟨_, he⟩
        · rcases List.mem_cons.1 he with he | he
          · exact Or.inr ⟨_, he⟩
          · exact ih _ e he

theorem buildSteps_log_ok (innerHeight : Int) (blips : List SanitizedBlip)
    (hr : (blips.map (fun b => b.ring)).toFinset.card ≤ maxRings)
    (hp : ∀ b ∈ blips, b.quadrant ∉ objectPrototypeKeys) :
    (buildSteps capitalize innerHeight blips).log
      = Event.removeLoading :: (buildRings blips).log
          ++ (quadrantsEach capitalize (ringMapOf blips) blips []).log
          ++ Event.newRadar :: (radarOf capitalize blips).quadrants.map Event.addQuadrant
          ++ [Event.graphingRadar (radarSize innerHeight) (radarOf capitalize blips)] := by
  unfold buildSteps
  simp only [buildRings_ok blips hr, quadrantsEach_nil_ok _ blips hp, addQuadrants_eq]
  rfl

theorem rendered_buildSteps (innerHeight : Int) (blips : List SanitizedBlip)
    (hr : (blips.map (fun b => b.ring)).toFinset.card ≤ maxRings)
    (hp : ∀ b ∈ blips, b.quadrant ∉ objectPrototypeKeys) :
    rendered (buildSteps capitalize innerHeight blips).log = true
      ∧ errorShown (buildSteps capitalize innerHeight blips).log = false := by
  rw [buildSteps_log_ok innerHeight blips hr hp]
  constructor
  · simp [rendered]
  · unfold errorShown
    rw [← Bool.not_eq_true, List.any_eq_true]
    rintro ⟨e, he, hm⟩
    simp only [List.cons_append, List.mem_cons, List.mem_append, List.mem_map,
      List.mem_singleton, List.mem_nil_iff, or_false, buildRings_log] at he
    rcases he with he | (((⟨r, _, he⟩ | he) | he | ⟨q, _, he⟩) | he)
    · subst he; simp at hm
    · subst he; simp at hm
    · rcases quadrantsEach_log _ _ _ e he with ⟨n, he⟩ | ⟨b, he⟩
      · subst he; simp at hm
      · subst he; simp at hm
    · subst he; simp at hm
    · subst he; simp at hm
    · subst he; simp at hm

theorem rendered_plotErrorMessage (e : Exception) :
    rendered (plotErrorMessage e) = false ∧ errorShown (plotErrorMessage e) = true := by
  cases e <;> exact ⟨rfl, rfl⟩

end Build

/-! ## Claims -/

/-- C1: when the ring fields hold more than 4 distinct names, `plotRadar` and the same
steps inside `createRadar` raise `MalformedDataError(TOO_MANY_RINGS)`, and up to
that point only the title was set, the loading state removed and rings constructed:
no quadrant, blip or radar was constructed and the rendering collaborator was not
invoked. -/
theorem too_many_rings_raises (capitalize : String → String) (innerHeight : Int)
    (title : String)
    (blips : List SanitizedBlip)
    (h : 4 < (blips.map (fun b => b.ring)).toFinset.card) :
    (plotRadar capitalize innerHeight title blips).res = .error (.malformedData TOO_MANY_RINGS)
      ∧ (buildSteps capitalize innerHeight blips).res = .error (.malformedData TOO_MANY_RINGS)
      ∧ (∀ e ∈ (plotRadar capitalize innerHeight title blips).log,
          e = .setTitle title ∨ e = .removeLoading ∨ ∃ r, e = .newRing r)
      ∧ (∀ e ∈ (buildSteps capitalize innerHeight blips).log,
          e = .removeLoading ∨ ∃ r, e = .newRing r) := by
  have hres : (buildSteps capitalize innerHeight blips).res = .error (.malformedData TOO_MANY_RINGS) := by
    unfold buildSteps
    simp only [buildRings_error blips h]
  have hlog : ∀ e ∈ (buildSteps capitalize innerHeight blips).log,
      e = .removeLoading ∨ ∃ r, e = .newRing r := by
    intro e he
    rw [buildSteps_log_of_error innerHeight blips h, List.mem_cons, List.mem_map] at he
    rcases he with he | ⟨r, _, hr⟩
    · exact Or.inl he
    · exact Or.inr ⟨r, hr.symm⟩
  refine ⟨hres, hres, ?_, hlog⟩
  intro e he
  have he2 : e = .setTitle title ∨ e ∈ (buildSteps capitalize innerHeight blips).log :=
    List.mem_cons.1 he
  rcases he2 with he2 | he2
  · exact Or.inl he2
  · exact Or.inr (hlog e he2)

/-- Witness of C1 at five rows with the rings Adopt, Trial, Assess, Hold, Retire. -/
theorem too_many_rings_raises_witness :
    4 < (fiveRings.map (fun b => b.ring)).toFinset.card
      ∧ (plotRadar capitalizeAscii 900 "Radar" fiveRings).res = .error (.malformedData TOO_MANY_RINGS)
      ∧ (plotRadar capitalizeAscii 900 "Radar" fiveRings).log
          = [.setTitle "Radar", .removeLoading, .newRing ⟨"Adopt", 0⟩,
              .newRing ⟨"Trial", 1⟩, .newRing ⟨"Assess", 2⟩, .newRing ⟨"Hold", 3⟩] :=
  ⟨by decide, (too_many_rings_raises capitalizeAscii 900 "Radar" fiveRings (by decide)).1, rfl⟩

/-- C3: with at most 4 distinct ring names the ring phase succeeds, and the ring stored
for a name has as order the number of distinct ring names seen before the first row
with that name; the orders of the rings, in construction order, are `0, 1, ..., k-1`
for `k` distinct names. -/
theorem ring_order_is_first_occurrence_index (blips : List SanitizedBlip)
    (h : (blips.map (fun b => b.ring)).toFinset.card ≤ 4) :
    ∃ ringMap, (buildRings blips).res = .ok ringMap
      ∧ (∀ pre b post, blips = pre ++ b :: post → b.ring ∉ pre.map (fun x => x.ring) →
          JsObject.get ringMap b.ring
            = .own ⟨b.ring, (pre.map (fun x => x.ring)).toFinset.card⟩)
      ∧ ringMap.map (fun e => e.2.order)
          = List.range (blips.map (fun b => b.ring)).toFinset.card := by
  refine ⟨ringMapOf blips, buildRings_ok blips h, ?_, ?_⟩
  · intro pre b post hsplit hfirst
    subst hsplit
    exact JsObject.get_of_find_some _ _ _ (find_ringMapOf_first pre post b hfirst)
  · unfold ringMapOf
    rw [List.map_map]
    have : ((fun (e : String × Ring) => e.2.order) ∘ fun (r : Ring) => (r.name, r))
        = fun r => r.order := rfl
    rw [this, map_order_ringsFrom, length_ringNames, List.range_eq_range']

/-- Witness of C3: rings first seen in the order Adopt, Trial, Assess get the orders
0, 1, 2. -/
theorem ring_order_is_first_occurrence_index_witness :
    (threeRings.map (fun b => b.ring)).toFinset.card ≤ 4
      ∧ (buildRings threeRings).res
          = .ok [("Adopt", ⟨"Adopt", 0⟩), ("Trial", ⟨"Trial", 1⟩), ("Assess", ⟨"Assess", 2⟩)]
      ∧ ∃ ringMap, (buildRings threeRings).res = .ok ringMap
          ∧ (∀ pre b post, threeRings = pre ++ b :: post →
              b.ring ∉ pre.map (fun x => x.ring) →
              JsObject.get ringMap b.ring
                = .own ⟨b.ring, (pre.map (fun x => x.ring)).toFinset.card⟩)
          ∧ ringMap.map (fun e => e.2.order)
              = List.range (threeRings.map (fun b => b.ring)).toFinset.card :=
  ⟨by decide, rfl, ring_order_is_first_occurrence_index threeRings (by decide)⟩

/-- C4: after a successful build the quadrants of the radar are, up to their order, one
quadrant per distinct quadrant key, and the blip list of the quadrant of a key is
the list of blips made from the rows with that key, in input row order. -/
theorem quadrant_blips_in_row_order (capitalize : String → String) (innerHeight : Int)
    (title : String)
    (blips : List SanitizedBlip) (radar : Radar)
    (hok : (plotRadar capitalize innerHeight title blips).res = .ok radar) :
    (buildSteps capitalize innerHeight blips).res = .ok radar
      ∧ ∃ ringMap, (buildRings blips).res = .ok ringMap
        ∧ radar.quadrants.Perm
            ((blips.map (fun b => b.quadrant)).dedup.map (fun key =>
              (⟨capitalize key,
                (blips.filter (fun b => b.quadrant = key)).map (newBlip ringMap)⟩ :
                  Quadrant))) := by
  rw [plotRadar_res] at hok
  obtain ⟨hr, _, hrad⟩ := buildSteps_char innerHeight blips radar hok
  refine ⟨hok, ringMapOf blips, buildRings_ok blips hr, ?_⟩
  rw [hrad]
  exact radarOf_perm blips

/-- Witness of C4: the rows Go then COBOL, both in Languages, give one quadrant
"Languages" with the blips Go, COBOL in that order. -/
theorem quadrant_blips_in_row_order_witness :
    (plotRadar capitalizeAscii 900 "Radar" goCobol).res
        = .ok ⟨[⟨"Languages",
            [⟨"Go", .own ⟨"Adopt", 0⟩, true, "", ""⟩,
             ⟨"COBOL", .own ⟨"Hold", 1⟩, false, "", ""⟩]⟩]⟩
      ∧ ∃ ringMap, (buildRings goCobol).res = .ok ringMap
        ∧ (⟨[⟨"Languages",
            [⟨"Go", .own ⟨"Adopt", 0⟩, true, "", ""⟩,
             ⟨"COBOL", .own ⟨"Hold", 1⟩, false, "", ""⟩]⟩]⟩ : Radar).quadrants.Perm
            ((goCobol.map (fun b => b.quadrant)).dedup.map (fun key =>
              (⟨capitalizeAscii key,
                (goCobol.filter (fun b => b.quadrant = key)).map (newBlip ringMap)⟩ :
                  Quadrant))) :=
  ⟨rfl, (quadrant_blips_in_row_order capitalizeAscii 900 "Radar" goCobol _ rfl).2⟩

/-- C5, counterexample: the quadrant fields "languages" and "Languages" give two different
quadrants of one radar, both with the display name "Languages"; the same happens
under every capitalization function that gives the two strings one name. -/
theorem quadrant_names_collide :
    (plotRadar capitalizeAscii 900 "Radar" mixedCase).res
        = .ok ⟨[⟨"Languages", [⟨"Go", .own ⟨"Adopt", 0⟩, true, "", ""⟩]⟩,
                ⟨"Languages", [⟨"COBOL", .own ⟨"Hold", 1⟩, false, "", ""⟩]⟩]⟩
      ∧ (⟨"Languages", [⟨"Go", .own ⟨"Adopt", 0⟩, true, "", ""⟩]⟩ : Quadrant)
          ≠ ⟨"Languages", [⟨"COBOL", .own ⟨"Hold", 1⟩, false, "", ""⟩]⟩
      ∧ ¬ (([⟨"Languages", [⟨"Go", .own ⟨"Adopt", 0⟩, true, "", ""⟩]⟩,
              ⟨"Languages", [⟨"COBOL", .own ⟨"Hold", 1⟩, false, "", ""⟩]⟩] :
                List Quadrant).map (fun q => q.name)).Nodup
      ∧ (∀ capitalize : String → String,
          capitalize "languages" = capitalize "Languages" →
            ∃ q1 q2, (plotRadar capitalize 900 "Radar" mixedCase).res = .ok ⟨[q1, q2]⟩
              ∧ q1 ≠ q2 ∧ q1.name = q2.name) := by
  refine ⟨rfl, by decide, by decide, ?_⟩
  intro capitalize h
  refine ⟨⟨capitalize "languages", [⟨"Go", .own ⟨"Adopt", 0⟩, true, "", ""⟩]⟩,
    ⟨capitalize "Languages", [⟨"COBOL", .own ⟨"Hold", 1⟩, false, "", ""⟩]⟩, rfl, ?_, h⟩
  intro heq
  have hb : ([⟨"Go", .own ⟨"Adopt", 0⟩, true, "", ""⟩] : List Blip)
      = [⟨"COBOL", .own ⟨"Hold", 1⟩, false, "", ""⟩] := congrArg Quadrant.blips heq
  exact absurd hb (by decide)

/-- C5, amended: after a successful build the radar has one quadrant per distinct raw
quadrant string, named by the capitalization of that string; the names are pairwise
distinct when no two different raw quadrant strings of the input capitalize to the
same name. -/
theorem quadrant_names_are_capitalized_keys (capitalize : String → String)
    (innerHeight : Int) (title : String)
    (blips : List SanitizedBlip) (radar : Radar)
    (hok : (plotRadar capitalize innerHeight title blips).res = .ok radar) :
    (radar.quadrants.map (fun q => q.name)).Perm
        ((blips.map (fun b => b.quadrant)).dedup.map capitalize)
      ∧ ((∀ a ∈ blips, ∀ b ∈ blips,
            capitalize a.quadrant = capitalize b.quadrant → a.quadrant = b.quadrant) →
          (radar.quadrants.map (fun q => q.name)).Nodup) := by
  rw [plotRadar_res] at hok
  obtain ⟨_, _, hrad⟩ := buildSteps_char innerHeight blips radar hok
  have hperm : (radar.quadrants.map (fun q => q.name)).Perm
      ((blips.map (fun b => b.quadrant)).dedup.map capitalize) := by
    rw [hrad]
    have h := (@radarOf_perm capitalize blips).map (fun q => q.name)
    rw [List.map_map] at h
    exact h
  refine ⟨hperm, fun hinj => ?_⟩
  rw [hperm.nodup_iff]
  apply List.Nodup.map_on _ (List.nodup_dedup _)
  intro x hx y hy hxy
  rw [List.mem_dedup, List.mem_map] at hx hy
  obtain ⟨a, ha, rfl⟩ := hx
  obtain ⟨b, hb, rfl⟩ := hy
  exact hinj a ha b hb hxy

/-- Witness of amended C5 at three rows in the quadrants "languages" and "platforms": the
radar has the two quadrants Languages and Platforms, and the names are distinct. -/
theorem quadrant_names_are_capitalized_keys_witness :
    (∃ radar, (plotRadar capitalizeAscii 900 "Radar" twoQuadrants).res = .ok radar
        ∧ radar.quadrants.map (fun q => q.name) = ["Languages", "Platforms"])
      ∧ (∀ a ∈ twoQuadrants, ∀ b ∈ twoQuadrants,
          capitalizeAscii a.quadrant = capitalizeAscii b.quadrant → a.quadrant = b.quadrant)
      ∧ ((radarOf capitalizeAscii twoQuadrants).quadrants.map (fun q => q.name)).Perm
          ((twoQuadrants.map (fun b => b.quadrant)).dedup.map capitalizeAscii)
      ∧ ((radarOf capitalizeAscii twoQuadrants).quadrants.map (fun q => q.name)).Nodup :=
  ⟨⟨radarOf capitalizeAscii twoQuadrants, rfl, rfl⟩, by decide,
    (quadrant_names_are_capitalized_keys capitalizeAscii 900 "Radar" twoQuadrants
      (radarOf capitalizeAscii twoQuadrants) rfl).1,
    (quadrant_names_are_capitalized_keys capitalizeAscii 900 "Radar" twoQuadrants
      (radarOf capitalizeAscii twoQuadrants) rfl).2 (by decide)⟩

/-- C6: after a successful build every blip of every quadrant of the radar was made from a
row of the input, and its ring reference is an own entry of the ring map: the one
ring of the built ring set whose name is the ring field of that row. -/
theorem blip_ring_resolves (capitalize : String → String) (innerHeight : Int)
    (title : String)
    (blips : List SanitizedBlip) (radar : Radar)
    (hok : (plotRadar capitalize innerHeight title blips).res = .ok radar) :
    ∃ ringMap, (buildRings blips).res = .ok ringMap
      ∧ ∀ q ∈ radar.quadrants, ∀ b ∈ q.blips,
          ∃ row ∈ blips, b = newBlip ringMap row
            ∧ ∃ ring, b.ring = .own ring
              ∧ ring.name = row.ring
              ∧ ring ∈ ringMap.map Prod.snd
              ∧ ∀ other ∈ ringMap.map Prod.snd, other.name = row.ring → other = ring := by
  rw [plotRadar_res] at hok
  obtain ⟨hr, _, hrad⟩ := buildSteps_char innerHeight blips radar hok
  refine ⟨ringMapOf blips, buildRings_ok blips hr, ?_⟩
  intro q hq b hb
  rw [hrad] at hq
  have hq2 := (radarOf_perm blips).mem_iff.1 hq
  rw [List.mem_map] at hq2
  obtain ⟨key, _, rfl⟩ := hq2
  simp only [quadrantOf, List.mem_map, List.mem_filter] at hb
  obtain ⟨row, ⟨hrow, _⟩, rfl⟩ := hb
  obtain ⟨i, hi⟩ := find_ringMapOf blips row hrow
  have hmem : (⟨row.ring, i⟩ : Ring) ∈ (ringMapOf blips).map Prod.snd :=
    List.mem_map.2 ⟨_, JsObject.mem_of_find_some _ _ _ hi, rfl⟩
  refine ⟨row, hrow, rfl, ⟨row.ring, i⟩, ?_, rfl, hmem, ?_⟩
  · exact JsObject.get_of_find_some _ _ _ hi
  · intro other ho hname
    exact ringMapOf_name_unique blips other _ ho hmem hname

/-- Witness of C6 at the rows of `threeRings`. -/
theorem blip_ring_resolves_witness :
    ∃ radar, (plotRadar capitalizeAscii 900 "Radar" threeRings).res = .ok radar
      ∧ ∃ ringMap, (buildRings threeRings).res = .ok ringMap
        ∧ ∀ q ∈ radar.quadrants, ∀ b ∈ q.blips,
            ∃ row ∈ threeRings, b = newBlip ringMap row
              ∧ ∃ ring, b.ring = .own ring
                ∧ ring.name = row.ring
                ∧ ring ∈ ringMap.map Prod.snd
                ∧ ∀ other ∈ ringMap.map Prod.snd, other.name = row.ring → other = ring :=
  ⟨radarOf capitalizeAscii threeRings, rfl, blip_ring_resolves capitalizeAscii 900 "Radar" threeRings (radarOf capitalizeAscii threeRings) rfl⟩

/-- C7: the `isNew` flag of the blip built from a sanitized blip is `true` exactly when
the `isNew` string is "true" up to the case of its four letters; "TRUE", "true"
and "True" give `true`, and "false", "" and "maybe" give `false`. -/
theorem isNew_flag_iff (ringMap : JsObject Ring) (blip : SanitizedBlip) :
    ((newBlip ringMap blip).isNew = true ↔
        ∃ c0 c1 c2 c3, blip.isNew = String.mk [c0, c1, c2, c3]
          ∧ (c0 = 't' ∨ c0 = 'T') ∧ (c1 = 'r' ∨ c1 = 'R')
          ∧ (c2 = 'u' ∨ c2 = 'U') ∧ (c3 = 'e' ∨ c3 = 'E'))
      ∧ (newBlip ringMap { blip with isNew := "TRUE" }).isNew = true
      ∧ (newBlip ringMap { blip with isNew := "true" }).isNew = true
      ∧ (newBlip ringMap { blip with isNew := "True" }).isNew = true
      ∧ (newBlip ringMap { blip with isNew := "false" }).isNew = false
      ∧ (newBlip ringMap { blip with isNew := "" }).isNew = false
      ∧ (newBlip ringMap { blip with isNew := "maybe" }).isNew = false := by
  refine ⟨?_, rfl, rfl, rfl, rfl, rfl, rfl⟩
  unfold newBlip
  simp only [decide_eq_true_eq]
  exact toLowerCase_eq_true_iff blip.isNew

/-- C2, failing input: one row with non-empty fields, one ring name and the quadrant
"constructor".  `quadrants["constructor"]` is the inherited `Object` function, so no
quadrant is created and the call of `.add` raises a `TypeError`: the build fails and
nothing is rendered. -/
theorem quadrant_named_constructor_raises :
    (constructorRow.map (fun b => b.ring)).toFinset.card ≤ 4
      ∧ (∀ b ∈ constructorRow, b.name ≠ "" ∧ b.ring ≠ "" ∧ b.quadrant ≠ "")
      ∧ (plotRadar capitalizeAscii 900 "Radar" constructorRow).res
          = .error (.other "TypeError: quadrants[constructor].add is not a function")
      ∧ (plotRadar capitalizeAscii 900 "Radar" constructorRow).log
          = [.setTitle "Radar", .removeLoading, .newRing ⟨"Adopt", 0⟩,
              .newBlip ⟨"Go", .own ⟨"Adopt", 0⟩, true, "", ""⟩]
      ∧ rendered (plotRadar capitalizeAscii 900 "Radar" constructorRow).log = false :=
  ⟨by decide, by decide, rfl, rfl, rfl⟩

/-- C8, counterexample: for a `SheetNotFoundError` the message shown starts with the
exception's own message and does not contain the generic preface. -/
theorem sheetNotFound_message_has_no_preface :
    errorMessage (.sheetNotFound "Sheet not found")
        = "Sheet not found<br/>Please check <a href=\"https://www.thoughtworks.com/radar/how-to-byor\">FAQs</a> for possible solutions."
      ∧ ¬ preface.data <:+: (errorMessage (.sheetNotFound "Sheet not found")).data := by
  refine ⟨rfl, fun h => ?_⟩
  have h1 : '!' ∈ preface.data := by decide
  have h2 : '!' ∉ (errorMessage (.sheetNotFound "Sheet not found")).data := by decide
  exact h2 (h.subset h1)

/-- C8, amended: for a `MalformedDataError` the message shown is the generic preface, the
exception's message, a line break and the help link, in that order; for a
`SheetNotFoundError` it is the exception's message, a line break and the help
link, without the preface.  In both cases it is the one message shown, after the
loading state was removed. -/
theorem recognized_error_message (m : String) :
    errorMessage (.malformedData m) = preface ++ m ++ "<br/>" ++ helpLink
      ∧ errorMessage (.sheetNotFound m) = m ++ "<br/>" ++ helpLink
      ∧ plotErrorMessage (.malformedData m)
          = [.removeLoading, .errorHtml (preface ++ m ++ "<br/>" ++ helpLink)]
      ∧ plotErrorMessage (.sheetNotFound m)
          = [.removeLoading, .errorHtml (m ++ "<br/>" ++ helpLink)] :=
  ⟨rfl, rfl, rfl, rfl⟩

/-- C9: for an exception that is neither a `MalformedDataError` nor a
`SheetNotFoundError` the message shown is the generic preface, a line break and the
help link, whatever the exception holds; two such exceptions show the same text, and
the exception itself goes to the console only. -/
theorem unrecognized_error_message (e1 e2 : Exception)
    (h1 : (∀ m, e1 ≠ .malformedData m) ∧ (∀ m, e1 ≠ .sheetNotFound m))
    (h2 : (∀ m, e2 ≠ .malformedData m) ∧ (∀ m, e2 ≠ .sheetNotFound m)) :
    errorMessage e1 = preface ++ "<br/>" ++ helpLink
      ∧ errorMessage e1 = errorMessage e2
      ∧ plotErrorMessage e1
          = [.removeLoading, .consoleError e1, .errorHtml (preface ++ "<br/>" ++ helpLink)] := by
  cases e1 with
  | malformedData m => exact absurd rfl (h1.1 m)
  | sheetNotFound m => exact absurd rfl (h1.2 m)
  | other d1 =>
    cases e2 with
    | malformedData m => exact absurd rfl (h2.1 m)
    | sheetNotFound m => exact absurd rfl (h2.2 m)
    | other d2 => exact ⟨rfl, rfl, rfl⟩

/-- Witness of C9: two different type errors show the same text. -/
theorem unrecognized_error_message_witness :
    errorMessage (notAFunction "constructor")
        = "Oops! It seems like there are some problems with loading your data. <br/>Please check <a href=\"https://www.thoughtworks.com/radar/how-to-byor\">FAQs</a> for possible solutions."
      ∧ errorMessage (notAFunction "constructor")
          = preface ++ "<br/>" ++ helpLink
      ∧ errorMessage (notAFunction "constructor") = errorMessage (notAFunction "toString")
      ∧ plotErrorMessage (notAFunction "constructor")
          = [.removeLoading, .consoleError (notAFunction "constructor"),
              .errorHtml (preface ++ "<br/>" ++ helpLink)] :=
  ⟨rfl, unrecognized_error_message (notAFunction "constructor") (notAFunction "toString")
    ⟨fun _ h => Exception.noConfusion h, fun _ h => Exception.noConfusion h⟩
    ⟨fun _ h => Exception.noConfusion h, fun _ h => Exception.noConfusion h⟩⟩

/-- C10, counterexample: a table whose only row has an empty ring field.  The validator is
given the column names, which are those of the table with the field filled, so
every validator under which the filled table is rendered also lets the table with
the empty ring through: its radar is rendered, with a ring named "", and no error
is shown; the same holds for `createBlips`. -/
theorem empty_ring_row_is_rendered :
    emptyRingTable.columns = filledTable.columns
      ∧ (∃ row ∈ emptyRingTable.rows, field row "ring" = "")
      ∧ (∀ validator : ContentValidator,
          rendered (createRadar capitalizeAscii validator 900 filledTable) = true →
            rendered (createRadar capitalizeAscii validator 900 emptyRingTable) = true
              ∧ errorShown (createRadar capitalizeAscii validator 900 emptyRingTable) = false)
      ∧ (∀ validator : ContentValidator,
          rendered (createBlips capitalizeAscii validator 900 "Radar" filledTable) = true →
            rendered (createBlips capitalizeAscii validator 900 "Radar" emptyRingTable) = true
              ∧ errorShown (createBlips capitalizeAscii validator 900 "Radar" emptyRingTable) = false)
      ∧ createRadar capitalizeAscii acceptAll 900 emptyRingTable
          = [.removeLoading, .newRing ⟨"", 0⟩, .newQuadrant "Languages",
              .newBlip ⟨"Go", .own ⟨"", 0⟩, true, "", ""⟩, .newRadar,
              .addQuadrant ⟨"Languages", [⟨"Go", .own ⟨"", 0⟩, true, "", ""⟩]⟩,
              .graphingRadar 767
                ⟨[⟨"Languages", [⟨"Go", .own ⟨"", 0⟩, true, "", ""⟩]⟩]⟩] := by
  refine ⟨rfl, ⟨_, List.mem_singleton.2 rfl, rfl⟩, ?_, ?_, rfl⟩
  · intro validator h
    unfold createRadar at h ⊢
    have hc : emptyRingTable.columns = filledTable.columns := rfl
    rw [hc]
    cases h1 : validator.verifyContent filledTable.columns with
    | error e => rw [h1] at h; simp [(rendered_plotErrorMessage e).1] at h
    | ok u =>
      cases h2 : validator.verifyHeaders filledTable.columns with
      | error e => rw [h1, h2] at h; simp [(rendered_plotErrorMessage e).1] at h
      | ok u2 => exact ⟨rfl, rfl⟩
  · intro validator h
    unfold createBlips at h ⊢
    have hc : emptyRingTable.columns = filledTable.columns := rfl
    rw [hc]
    cases h1 : validator.verifyContent filledTable.columns with
    | error e => rw [h1] at h; simp [(rendered_plotErrorMessage e).1] at h
    | ok u =>
      cases h2 : validator.verifyHeaders filledTable.columns with
      | error e => rw [h1, h2] at h; simp [(rendered_plotErrorMessage e).1] at h
      | ok u2 => exact ⟨rfl, rfl⟩

/-- C10, amended: the validator is given the column names only.  When one of its two
checks rejects them, `createRadar` and `createBlips` show that error and render
nothing, whatever the rows hold.  When both checks accept them, the rows are built
whether or not a name, ring or quadrant is empty: with at most 4 distinct ring
names and no quadrant named like a member of `Object.prototype` among the sanitized
rows, the radar is rendered and no error is shown. -/
theorem validation_sees_columns_only (capitalize : String → String)
    (validator : ContentValidator) (innerHeight : Int)
    (title : String) (data : Table) :
    (∀ e, (validator.verifyContent data.columns = .error e
          ∨ (validator.verifyContent data.columns = .ok ()
              ∧ validator.verifyHeaders data.columns = .error e)) →
        createRadar capitalize validator innerHeight data = plotErrorMessage e
          ∧ createBlips capitalize validator innerHeight title data = plotErrorMessage e
          ∧ rendered (plotErrorMessage e) = false
          ∧ errorShown (plotErrorMessage e) = true)
      ∧ (validator.verifyContent data.columns = .ok () →
          validator.verifyHeaders data.columns = .ok () →
          ((data.rows.map sanitize).map (fun b => b.ring)).toFinset.card ≤ 4 →
          (∀ b ∈ data.rows.map sanitize, b.quadrant ∉ objectPrototypeKeys) →
          rendered (createRadar capitalize validator innerHeight data) = true
            ∧ errorShown (createRadar capitalize validator innerHeight data) = false
            ∧ rendered (createBlips capitalize validator innerHeight title data) = true
            ∧ errorShown (createBlips capitalize validator innerHeight title data) = false) := by
  constructor
  · intro e he
    refine ⟨?_, ?_, rendered_plotErrorMessage e⟩
    · unfold createRadar
      rcases he with he | ⟨h1, h2⟩
      · rw [he]
      · rw [h1, h2]
    · unfold createBlips
      rcases he with he | ⟨h1, h2⟩
      · rw [he]
      · rw [h1, h2]
  · intro h1 h2 hr hp
    have hres := @buildSteps_ok capitalize innerHeight (data.rows.map sanitize) hr hp
    obtain ⟨hrend, herr⟩ :=
      @rendered_buildSteps capitalize innerHeight (data.rows.map sanitize) hr hp
    have hcr : createRadar capitalize validator innerHeight data
        = (buildSteps capitalize innerHeight (data.rows.map sanitize)).log := by
      unfold createRadar
      simp only [h1, h2, hres]
    have hcb : createBlips capitalize validator innerHeight title data
        = Event.setTitle title ::
            (buildSteps capitalize innerHeight (data.rows.map sanitize)).log := by
      unfold createBlips
      simp only [h1, h2, plotRadar_res, hres]
      rfl
    rw [hcr, hcb]
    refine ⟨hrend, herr, ?_, ?_⟩
    · unfold rendered at hrend ⊢
      rw [List.any_cons, hrend, Bool.or_true]
    · unfold errorShown at herr ⊢
      rw [List.any_cons, herr]
      rfl

/-- Witness of amended C10: under a validator that accepts the column names, the table
with an empty ring field is rendered by `createRadar` and by `createBlips`; under a
validator that rejects them, the error is shown and nothing is rendered. -/
theorem validation_sees_columns_only_witness :
    (rendered (createRadar capitalizeAscii acceptAll 900 emptyRingTable) = true
      ∧ errorShown (createRadar capitalizeAscii acceptAll 900 emptyRingTable) = false
      ∧ rendered (createBlips capitalizeAscii acceptAll 900 "Radar" emptyRingTable) = true
      ∧ errorShown (createBlips capitalizeAscii acceptAll 900 "Radar" emptyRingTable) = false)
    ∧ (createRadar capitalizeAscii rejectAll 900 emptyRingTable
          = plotErrorMessage
              (.malformedData "Document is missing one or more required headers.")
        ∧ createBlips capitalizeAscii rejectAll 900 "Radar" emptyRingTable
          = plotErrorMessage
              (.malformedData "Document is missing one or more required headers.")
        ∧ rendered (plotErrorMessage
              (.malformedData "Document is missing one or more required headers.")) = false
        ∧ errorShown (plotErrorMessage
              (.malformedData "Document is missing one or more required headers.")) = true) :=
  ⟨(validation_sees_columns_only capitalizeAscii acceptAll 900 "Radar" emptyRingTable).2 rfl rfl
      (by decide) (by decide),
    (validation_sees_columns_only capitalizeAscii rejectAll 900 "Radar" emptyRingTable).1 _
      (Or.inr ⟨rfl, rfl⟩)⟩

end Factory
